import Mathlib

/-!
# Events library: event lifecycle and collector

A shallow embedding of `go/libraries/events/events.go` and
`go/libraries/events/collector.go`.

* Go pointers that may be nil become `Option`.
* A call returns an `Outcome`: a normal return (value and post-state), a Go
  panic (with the state the panic leaves behind), or `blocked` when the call
  cannot proceed in the current state (channel full, wait group not done).
* The event mutex only serialises calls; in the sequential model every method
  is one atomic step, so the mutex carries no state.
* The clock `EventNowFunc`, the fresh uuid and the iteration order of a Go map
  are inputs of the calls that use them.
* Machine integers are `Int` with explicit wrap-around.
-/

namespace Events

/-! ## Outcomes -/

/-- Result of one call on a state of type `σ` returning an `α`. -/
inductive Outcome (σ : Type) (α : Type) where
  | ok (ret : α) (post : σ)
  | panic (post : σ)
  | blocked
  deriving DecidableEq, Repr

/-- State after a call made in state `s`: a blocked call leaves `s` as it is. -/
def Outcome.state {σ α : Type} (s : σ) : Outcome σ α → σ
  | .ok _ post => post
  | .panic post => post
  | .blocked => s

/-! ## Machine integers and time -/

/-- Conversion of an integer to Go `int64` (two's complement wrap-around). -/
def wrapInt64 (x : Int) : Int :=
  (x + 9223372036854775808) % 18446744073709551616 - 9223372036854775808

/-- Conversion of an integer to Go `int32` (two's complement wrap-around). -/
def wrapInt32 (x : Int) : Int :=
  (x + 2147483648) % 4294967296 - 2147483648

/-- The constant `int64(time.Second)`: nanoseconds per second. -/
def timeSecond : Int := 1000000000

/-- A Go `time.Time` instant: whole seconds since the Unix epoch (rounded
down) and the nanosecond offset within that second, in `[0, 999999999]`. -/
structure Time where
  sec : Int
  nsec : Fin 1000000000
  deriving DecidableEq, Repr

/-- Go `Time.Unix`: seconds elapsed since the epoch. -/
def Time.Unix (t : Time) : Int := t.sec

/-- Go `Time.UnixNano`: nanoseconds elapsed since the epoch, as an `int64`. -/
def Time.UnixNano (t : Time) : Int :=
  wrapInt64 (t.sec * 1000000000 + (t.nsec.val : Int))

/-- Protobuf `timestamp.Timestamp` (`Seconds : int64`, `Nanos : int32`). -/
structure Timestamp where
  Seconds : Int
  Nanos : Int
  deriving DecidableEq, Repr

/-- Function `nowTimestamp`, applied to the reading `now := EventNowFunc()`.
Go's `%` is the truncating remainder `Int.tmod`. -/
def nowTimestamp (now : Time) : Timestamp :=
  let nanos := wrapInt32 (Int.tmod now.UnixNano timeSecond)
  { Seconds := now.Unix, Nanos := nanos }

/-- The instant a timestamp denotes, in nanoseconds:
`Seconds + Nanos / 10^9` seconds. -/
def Timestamp.toNanos (ts : Timestamp) : Int :=
  ts.Seconds * 1000000000 + ts.Nanos

/-! ## Client events -/

/-- Protobuf enum `eventsapi.AttributeID` (an `int32`). -/
abbrev AttributeID := Int

/-- Protobuf enum `eventsapi.ClientEventType` (an `int32`). -/
abbrev ClientEventType := Int

/-- Protobuf message `eventsapi.ClientEventAttribute`. -/
structure ClientEventAttribute where
  Id : AttributeID
  Value : String
  deriving DecidableEq, Repr

/-- Protobuf message `eventsapi.ClientEvent`, the closed form of an event,
with the fields the library writes. `CM` is the type of
`eventsapi.ClientEventMetric`. `EndTime` is a pointer, nil until close. The
Go field `Type` is `Type_` here, as `Type` is reserved. -/
structure ClientEvent (CM : Type) where
  Id : String
  StartTime : Timestamp
  EndTime : Option Timestamp
  Type_ : ClientEventType
  Metrics : List CM
  Attributes : List ClientEventAttribute
  deriving DecidableEq, Repr

/-! ## Go maps -/

/-- Go map assignment `m[k] = v` on a map held as its list of entries: an
existing entry for `k` is overwritten, otherwise a new entry is added. -/
def mapSet (m : List (AttributeID × String)) (k : AttributeID) (v : String) :
    List (AttributeID × String) :=
  match m with
  | [] => [(k, v)]
  | (k0, v0) :: rest => if k0 = k then (k, v) :: rest else (k0, v0) :: mapSet rest k v

/-- Go map lookup `val, ok := m[k]`. -/
def mapGet (m : List (AttributeID × String)) (k : AttributeID) : Option String :=
  match m with
  | [] => none
  | (k0, v0) :: rest => if k0 = k then some v0 else mapGet rest k

/-- One iteration order of `for k, v := range m`: Go visits every entry once,
in an unspecified order. -/
structure MapOrder where
  order : List (AttributeID × String) → List (AttributeID × String)
  perm : ∀ l, (order l).Perm l

/-- Iteration in the order the entries are held. -/
def MapOrder.stored : MapOrder := ⟨fun l => l, fun l => List.Perm.refl l⟩

/-- Iteration in the reverse order. -/
def MapOrder.reversed : MapOrder := ⟨fun l => l.reverse, fun l => List.reverse_perm l⟩

/-! ## Event -/

/-- Struct `Event`: the record `ce` (nil once handed off) and the attribute
map. -/
structure Event (CM : Type) where
  ce : Option (ClientEvent CM)
  attributes : List (AttributeID × String)
  deriving DecidableEq, Repr

/-- Function `NewEvent`; `id` is the fresh `uuid.New().String()` and `now` the
clock reading used by `nowTimestamp`. -/
def NewEvent {CM : Type} (id : String) (now : Time) (ceType : ClientEventType) : Event CM :=
  { ce := some
      { Id := id
        StartTime := nowTimestamp now
        EndTime := none
        Type_ := ceType
        Metrics := []
        Attributes := [] }
    attributes := [] }

/-- Method `Event.AddMetric`; `asClientEventMetric` is
`EventMetric.AsClientEventMetric`. Reading `evt.ce.Metrics` through a nil
`evt.ce` is a nil-pointer panic. -/
def Event.AddMetric {M CM : Type} (asClientEventMetric : M → CM) (evt : Event CM) (em : M) :
    Outcome (Event CM) Unit :=
  match evt.ce with
  | none => .panic evt
  | some ce =>
    .ok () { evt with ce := some { ce with Metrics := ce.Metrics ++ [asClientEventMetric em] } }

/-- Method `Event.SetAttribute`. -/
def Event.SetAttribute {CM : Type} (evt : Event CM) (attID : AttributeID) (attVal : String) :
    Outcome (Event CM) Unit :=
  .ok () { evt with attributes := mapSet evt.attributes attID attVal }

/-- Method `Event.GetAttribute`. -/
def Event.GetAttribute {CM : Type} (evt : Event CM) (attID : AttributeID) :
    Outcome (Event CM) String :=
  match mapGet evt.attributes attID with
  | some val => .ok val evt
  | none => .ok "" evt

/-- Method `Event.GetClientEventType`. -/
def Event.GetClientEventType {CM : Type} (evt : Event CM) :
    Outcome (Event CM) ClientEventType :=
  match evt.ce with
  | none => .panic evt
  | some ce => .ok ce.Type_ evt

/-- Method `Event.close`; `now` is the clock reading and `ord` the order in
which the range loop visits the attribute map. -/
def Event.close {CM : Type} (evt : Event CM) (now : Time) (ord : MapOrder) :
    Outcome (Event CM) (ClientEvent CM) :=
  match evt.ce with
  | none => .panic evt
  | some ce =>
    let ce1 := { ce with EndTime := some (nowTimestamp now) }
    let ce2 := { ce1 with
      Attributes := ce1.Attributes ++
        (ord.order evt.attributes).map (fun kv => ({ Id := kv.1, Value := kv.2 } : ClientEventAttribute)) }
    .ok ce2 { evt with ce := none }

/-! ## Call sequences on one event -/

/-- The calls open to the owner of an event before it is closed. -/
inductive OpenOp (M : Type) where
  | addMetric (em : M)
  | setAttribute (attID : AttributeID) (attVal : String)
  | getAttribute (attID : AttributeID)

/-- Any call on an event. -/
inductive EventOp (M : Type) where
  | call (op : OpenOp M)
  | getClientEventType
  | close (now : Time) (ord : MapOrder)

/-- State of the event after one call of `op`. -/
def execOpen {M CM : Type} (asClientEventMetric : M → CM) (evt : Event CM) :
    OpenOp M → Event CM
  | .addMetric em => (evt.AddMetric asClientEventMetric em).state evt
  | .setAttribute k v => (evt.SetAttribute k v).state evt
  | .getAttribute k => (evt.GetAttribute k).state evt

/-- State of the event after the calls `ops`, in order. -/
def execOpens {M CM : Type} (asClientEventMetric : M → CM) (evt : Event CM)
    (ops : List (OpenOp M)) : Event CM :=
  ops.foldl (execOpen asClientEventMetric) evt

/-- State of the event after one call of `op`; a call that panics leaves the
state the panic left. -/
def execOp {M CM : Type} (asClientEventMetric : M → CM) (evt : Event CM) :
    EventOp M → Event CM
  | .call op => execOpen asClientEventMetric evt op
  | .getClientEventType => (evt.GetClientEventType).state evt
  | .close now ord => (evt.close now ord).state evt

/-- State of the event after the calls `ops`, in order. -/
def execOps {M CM : Type} (asClientEventMetric : M → CM) (evt : Event CM)
    (ops : List (EventOp M)) : Event CM :=
  ops.foldl (execOp asClientEventMetric) evt

/-- The metrics passed to `AddMetric` in `ops`, in call order. -/
def addedMetrics {M : Type} : List (OpenOp M) → List M
  | [] => []
  | .addMetric em :: rest => em :: addedMetrics rest
  | _ :: rest => addedMetrics rest

/-- The value of the last `SetAttribute(k, _)` call in `ops`, if any; `acc`
is the value set before `ops`. -/
def lastSetFrom {M : Type} (k : AttributeID) (acc : Option String) :
    List (OpenOp M) → Option String
  | [] => acc
  | .setAttribute k0 v :: rest =>
    if k0 = k then lastSetFrom k (some v) rest else lastSetFrom k acc rest
  | _ :: rest => lastSetFrom k acc rest

/-- The value of the last `SetAttribute(k, _)` call in `ops`, if any. -/
def lastSet {M : Type} (k : AttributeID) (ops : List (OpenOp M)) : Option String :=
  lastSetFrom k none ops

/-- The `OpenOp` calls among `ops`, in order. -/
def openCalls {M : Type} : List (EventOp M) → List (OpenOp M)
  | [] => []
  | .call op :: rest => op :: openCalls rest
  | _ :: rest => openCalls rest

/-! ## Collector -/

/-- The constant `collChanBufferSize`. -/
def collChanBufferSize : Nat := 32

/-- Struct `Collector` together with the state of the goroutine started by
`NewCollector`: `val` is the `atomic.Value` (nil until stored), `wg` the
wait-group counter, `evtCh` the buffered contents of the channel, oldest
first, `chClosed` whether the channel has been closed, and `events` the
goroutine's local slice. The goroutine has returned exactly when `wg = 0`. -/
structure Collector (CM : Type) where
  val : Option (List (ClientEvent CM))
  wg : Nat
  evtCh : List (ClientEvent CM)
  chClosed : Bool
  events : List (ClientEvent CM)
  deriving DecidableEq, Repr

/-- Function `NewCollector`: the state right after it returns, the goroutine
started and not yet run. -/
def NewCollector {CM : Type} : Collector CM :=
  { val := none, wg := 1, evtCh := [], chClosed := false, events := [] }

/-- Channel send `c.evtCh <- ce`: panics on a closed channel, blocks while the
buffer is full. -/
def chanSend {CM : Type} (c : Collector CM) (ce : ClientEvent CM) :
    Outcome (Collector CM) Unit :=
  if c.chClosed then .panic c
  else if c.evtCh.length < collChanBufferSize then .ok () { c with evtCh := c.evtCh ++ [ce] }
  else .blocked

/-- Channel close `close(c.evtCh)`: panics on a closed channel. -/
def chanClose {CM : Type} (c : Collector CM) : Outcome (Collector CM) Unit :=
  if c.chClosed then .panic c else .ok () { c with chClosed := true }

/-- One step of the goroutine of `NewCollector`: one iteration of
`for evt := range evtCh`, or, once the channel is closed and empty, the exit
from the loop, `c.val.Store(events)` and the deferred `wg.Done()`. Blocked
while the channel is open and empty, and after the goroutine has returned. -/
def consumerStep {CM : Type} (c : Collector CM) : Outcome (Collector CM) Unit :=
  if c.wg = 0 then .blocked
  else
    match c.evtCh with
    | evt :: rest => .ok () { c with evtCh := rest, events := c.events ++ [evt] }
    | [] =>
      if c.chClosed then .ok () { c with val := some c.events, wg := c.wg - 1 }
      else .blocked

/-- Method `Collector.CloseEventAndAdd`: `evt.close()` and then the send. The
state is the collector and the event. -/
def Collector.CloseEventAndAdd {CM : Type} (c : Collector CM) (evt : Event CM) (now : Time)
    (ord : MapOrder) : Outcome (Collector CM × Event CM) Unit :=
  match evt.close now ord with
  | .ok ce evt1 =>
    match chanSend c ce with
    | .ok _ c1 => .ok () (c1, evt1)
    | .panic c1 => .panic (c1, evt1)
    | .blocked => .blocked
  | .panic evt1 => .panic (c, evt1)
  | .blocked => .blocked

/-- The goroutine run for at most `n` steps, stopping when it cannot step. -/
def runConsumer {CM : Type} : Nat → Collector CM → Collector CM
  | 0, c => c
  | n + 1, c =>
    match consumerStep c with
    | .ok _ c1 => runConsumer n c1
    | _ => c

/-- Method `Collector.Close`: `close(c.evtCh)`, then `c.wg.Wait()`, then
`c.val.Load()` and the type assertion (a panic on a nil interface). Once the
channel is closed only the goroutine can step, so the wait is the goroutine
running until it returns; it needs at most one step per buffered event and one
more for the exit. -/
def Collector.Close {CM : Type} (c : Collector CM) :
    Outcome (Collector CM) (List (ClientEvent CM)) :=
  match chanClose c with
  | .panic c1 => .panic c1
  | .blocked => .blocked
  | .ok _ c1 =>
    let c2 := runConsumer (c1.evtCh.length + 1) c1
    if c2.wg = 0 then
      match c2.val with
      | some events => .ok events c2
      | none => .panic c2
    else .blocked

/-! ## Schedules of a collector -/

/-- One step of the system around a collector: a `CloseEventAndAdd` call by a
producer, a step of the goroutine, or the `close(c.evtCh)` of `Close`. -/
inductive Action (CM : Type) where
  | submit (evt : Event CM) (now : Time) (ord : MapOrder)
  | consume
  | shutdown

/-- Whether the action is a producer call. -/
def Action.isSubmit {CM : Type} : Action CM → Bool
  | .submit _ _ _ => true
  | _ => false

/-- Whether the action is a step of the goroutine. -/
def Action.isConsume {CM : Type} : Action CM → Bool
  | .consume => true
  | _ => false

/-- Whether the action closes the channel. -/
def Action.isShutdown {CM : Type} : Action CM → Bool
  | .shutdown => true
  | _ => false

/-- The collector after the action, when the action is enabled and returns
normally. -/
def step {CM : Type} (c : Collector CM) : Action CM → Option (Collector CM)
  | .submit evt now ord =>
    match c.CloseEventAndAdd evt now ord with
    | .ok _ post => some post.1
    | _ => none
  | .consume =>
    match consumerStep c with
    | .ok _ c1 => some c1
    | _ => none
  | .shutdown =>
    match chanClose c with
    | .ok _ c1 => some c1
    | _ => none

/-- The collector after a schedule, every step of which is enabled and
returns normally. -/
def run {CM : Type} (c : Collector CM) : List (Action CM) → Option (Collector CM)
  | [] => some c
  | a :: rest =>
    match step c a with
    | some c1 => run c1 rest
    | none => none

/-- The closed form a submit action puts on the queue. -/
def Action.closedForm {CM : Type} : Action CM → Option (ClientEvent CM)
  | .submit evt now ord =>
    match evt.close now ord with
    | .ok ce _ => some ce
    | _ => none
  | _ => none

/-- The closed forms of the events submitted in a schedule, in the order of
the calls. -/
def closedForms {CM : Type} (acts : List (Action CM)) : List (ClientEvent CM) :=
  acts.filterMap Action.closedForm

/-- The number of `CloseEventAndAdd` calls in a schedule. -/
def numSubmits {CM : Type} (acts : List (Action CM)) : Nat :=
  (acts.filter Action.isSubmit).length

/-- The schedule in which each event is submitted and consumed at once. -/
def submitEach {CM : Type} : List (Event CM × Time × MapOrder) → List (Action CM)
  | [] => []
  | (evt, now, ord) :: rest => .submit evt now ord :: .consume :: submitEach rest

/-- The schedule of producer calls alone. -/
def submitAll {CM : Type} (subs : List (Event CM × Time × MapOrder)) : List (Action CM) :=
  subs.map (fun s => Action.submit s.1 s.2.1 s.2.2)

/-! ## Concrete inputs -/

/-- An event created at the epoch, still open. -/
def exOpenEvent : Event Nat := NewEvent "e1" ⟨0, 0⟩ 0

/-- The event `exOpenEvent` after its close one second later. -/
def exClosedEvent : Event Nat := { ce := none, attributes := [] }

/-- The reading 1969-12-31T23:59:59.999999999Z, one nanosecond before the
epoch. -/
def exBeforeEpoch : Time := ⟨-1, 999999999⟩

/-- The reading 1969-12-31T23:59:58Z, two seconds before the epoch. -/
def exCreated : Time := ⟨-2, 0⟩

/-- The reading one nanosecond after `exCreated`. -/
def exClosed : Time := ⟨-2, 1⟩

/-- A schedule: two events submitted, one goroutine step, a third event
submitted. -/
def exSchedule : List (Action Nat) :=
  [ .submit exOpenEvent ⟨1, 0⟩ MapOrder.stored,
    .submit { ce := some ⟨"e2", ⟨2, 0⟩, none, 1, [5], []⟩, attributes := [(1, "a"), (2, "b")] }
      ⟨3, 0⟩ MapOrder.reversed,
    .consume,
    .submit (NewEvent "e3" ⟨4, 0⟩ 2) ⟨5, 0⟩ MapOrder.stored ]

/-- The collector after `exSchedule`: one closed form taken by the goroutine,
two still on the channel. -/
def exCollector : Collector Nat :=
  { val := none
    wg := 1
    evtCh :=
      [ ⟨"e2", ⟨2, 0⟩, some ⟨3, 0⟩, 1, [5], [⟨2, "b"⟩, ⟨1, "a"⟩]⟩,
        ⟨"e3", ⟨4, 0⟩, some ⟨5, 0⟩, 2, [], []⟩ ]
    chClosed := false
    events := [⟨"e1", ⟨0, 0⟩, some ⟨1, 0⟩, 0, [], []⟩] }

/-- A new collector after `Close`. -/
def exShutDown : Collector Nat :=
  { val := some [], wg := 0, evtCh := [], chClosed := true, events := [] }

/-- Thirty-two submissions and no goroutine step. -/
def exFillSchedule : List (Action Nat) :=
  submitAll (List.replicate 32 (exOpenEvent, ⟨1, 0⟩, MapOrder.stored))

/-- The collector after `exFillSchedule`: the channel buffer is full. -/
def exFull : Collector Nat :=
  { val := none
    wg := 1
    evtCh := List.replicate 32 ⟨"e1", ⟨0, 0⟩, some ⟨1, 0⟩, 0, [], []⟩
    chClosed := false
    events := [] }


/-! ## Go maps: lemmas -/

theorem mapGet_mapSet (m : List (AttributeID × String)) (k : AttributeID) (v : String)
    (k1 : AttributeID) :
    mapGet (mapSet m k v) k1 = if k = k1 then some v else mapGet m k1 := by
  induction m with
  | nil => simp [mapSet, mapGet]
  | cons hd tl ih =>
    obtain ⟨k0, v0⟩ := hd
    by_cases h0 : k0 = k
    · subst h0
      by_cases h1 : k0 = k1 <;> simp [mapSet, mapGet, h1]
    · by_cases h1 : k0 = k1
      · subst h1
        have h2 : ¬ k = k0 := fun h => h0 h.symm
        simp [mapSet, mapGet, h0, h2]
      · simp [mapSet, mapGet, h0, h1, ih]

theorem mem_keys_mapSet (m : List (AttributeID × String)) (k : AttributeID) (v : String)
    (x : AttributeID) :
    x ∈ (mapSet m k v).map Prod.fst ↔ x = k ∨ x ∈ m.map Prod.fst := by
  induction m with
  | nil => simp [mapSet]
  | cons hd tl ih =>
    obtain ⟨k0, v0⟩ := hd
    by_cases h0 : k0 = k
    · subst h0
      simp [mapSet]
    · simp only [mapSet, h0, if_false, List.map_cons, List.mem_cons, ih]
      tauto

theorem nodup_keys_mapSet (m : List (AttributeID × String)) (k : AttributeID) (v : String)
    (h : (m.map Prod.fst).Nodup) : ((mapSet m k v).map Prod.fst).Nodup := by
  induction m with
  | nil => simp [mapSet]
  | cons hd tl ih =>
    obtain ⟨k0, v0⟩ := hd
    simp only [List.map_cons, List.nodup_cons] at h
    by_cases h0 : k0 = k
    · subst h0
      simpa [mapSet] using h
    · simp only [mapSet, h0, if_false, List.map_cons, List.nodup_cons]
      refine ⟨?_, ih h.2⟩
      intro hmem
      rcases (mem_keys_mapSet tl k v k0).1 hmem with h1 | h1
      · exact h0 h1
      · exact h.1 h1

theorem mapGet_eq_none_of_not_mem (m : List (AttributeID × String)) (k : AttributeID)
    (h : k ∉ m.map Prod.fst) : mapGet m k = none := by
  induction m with
  | nil => simp [mapGet]
  | cons hd tl ih =>
    obtain ⟨k0, v0⟩ := hd
    simp only [List.map_cons, List.mem_cons, not_or] at h
    have h0 : ¬ k0 = k := fun e => h.1 e.symm
    simp [mapGet, h0, ih h.2]

theorem mem_iff_mapGet (m : List (AttributeID × String)) (h : (m.map Prod.fst).Nodup)
    (k : AttributeID) (v : String) : (k, v) ∈ m ↔ mapGet m k = some v := by
  induction m with
  | nil => simp [mapGet]
  | cons hd tl ih =>
    obtain ⟨k0, v0⟩ := hd
    simp only [List.map_cons, List.nodup_cons] at h
    by_cases h0 : k0 = k
    · subst h0
      have hnot : ∀ w, (k0, w) ∉ tl := fun w hw =>
        h.1 (List.mem_map.2 ⟨(k0, w), hw, rfl⟩)
      simp only [mapGet, if_true, List.mem_cons, Prod.mk.injEq, true_and, Option.some.injEq]
      constructor
      · rintro (e | e)
        · exact e.symm
        · exact absurd e (hnot v)
      · intro e
        exact Or.inl e.symm
    · have h1 : ¬ k = k0 := fun e => h0 e.symm
      simp [mapGet, h0, h1, ih h.2]

/-! ## Events: invariants of call sequences -/

theorem close_of_ce_none {CM : Type} (evt : Event CM) (h : evt.ce = none) (now : Time)
    (ord : MapOrder) : evt.close now ord = .panic evt := by
  simp [Event.close, h]

theorem execOpen_ce {M CM : Type} (f : M → CM) (evt : Event CM) (ce : ClientEvent CM)
    (h : evt.ce = some ce) (op : OpenOp M) :
    (execOpen f evt op).ce =
      some { ce with Metrics := ce.Metrics ++ (addedMetrics [op]).map f } := by
  cases op <;> simp [execOpen, Event.AddMetric, Event.SetAttribute, Event.GetAttribute,
    Outcome.state, h, addedMetrics]
  all_goals (cases mapGet evt.attributes _ <;> simp [Outcome.state, h])

theorem addedMetrics_cons {M : Type} (op : OpenOp M) (ops : List (OpenOp M)) :
    addedMetrics (op :: ops) = addedMetrics [op] ++ addedMetrics ops := by
  cases op <;> simp [addedMetrics]

theorem execOpens_ce {M CM : Type} (f : M → CM) (ops : List (OpenOp M)) (evt : Event CM)
    (ce : ClientEvent CM) (h : evt.ce = some ce) :
    (execOpens f evt ops).ce =
      some { ce with Metrics := ce.Metrics ++ (addedMetrics ops).map f } := by
  induction ops generalizing evt ce with
  | nil => simp [execOpens, addedMetrics, h]
  | cons op rest ih =>
    have h1 := execOpen_ce f evt ce h op
    have h2 := ih (execOpen f evt op) _ h1
    simp only [execOpens, List.foldl_cons] at h2 ⊢
    rw [h2, addedMetrics_cons op rest]
    simp [List.append_assoc]

theorem execOpen_attributes {M CM : Type} (f : M → CM) (evt : Event CM) (op : OpenOp M) :
    (execOpen f evt op).attributes =
      match op with
      | .setAttribute k v => mapSet evt.attributes k v
      | _ => evt.attributes := by
  cases op with
  | addMetric em =>
    cases h : evt.ce <;> simp [execOpen, Event.AddMetric, Outcome.state, h]
  | setAttribute k v => simp [execOpen, Event.SetAttribute, Outcome.state]
  | getAttribute k =>
    cases h : mapGet evt.attributes k <;> simp [execOpen, Event.GetAttribute, Outcome.state, h]

theorem execOpen_nodup {M CM : Type} (f : M → CM) (evt : Event CM) (op : OpenOp M)
    (h : (evt.attributes.map Prod.fst).Nodup) :
    ((execOpen f evt op).attributes.map Prod.fst).Nodup := by
  rw [execOpen_attributes]
  cases op with
  | setAttribute k v => exact nodup_keys_mapSet _ k v h
  | addMetric em => exact h
  | getAttribute k => exact h

theorem execOpen_mapGet {M CM : Type} (f : M → CM) (evt : Event CM) (op : OpenOp M)
    (k : AttributeID) :
    mapGet (execOpen f evt op).attributes k = lastSetFrom k (mapGet evt.attributes k) [op] := by
  rw [execOpen_attributes]
  cases op with
  | setAttribute k0 v =>
    simp only [mapGet_mapSet, lastSetFrom]
  | addMetric em => simp [lastSetFrom]
  | getAttribute k0 => simp [lastSetFrom]

theorem lastSetFrom_cons {M : Type} (k : AttributeID) (acc : Option String) (op : OpenOp M)
    (ops : List (OpenOp M)) :
    lastSetFrom k acc (op :: ops) = lastSetFrom k (lastSetFrom k acc [op]) ops := by
  cases op with
  | setAttribute k0 v => by_cases h : k0 = k <;> simp [lastSetFrom, h]
  | addMetric em => simp [lastSetFrom]
  | getAttribute k0 => simp [lastSetFrom]

theorem execOpens_nodup {M CM : Type} (f : M → CM) (ops : List (OpenOp M)) (evt : Event CM)
    (h : (evt.attributes.map Prod.fst).Nodup) :
    ((execOpens f evt ops).attributes.map Prod.fst).Nodup := by
  induction ops generalizing evt with
  | nil => simpa [execOpens] using h
  | cons op rest ih =>
    have h2 := ih (execOpen f evt op) (execOpen_nodup f evt op h)
    simpa [execOpens] using h2

theorem execOpens_mapGet {M CM : Type} (f : M → CM) (ops : List (OpenOp M)) (evt : Event CM)
    (k : AttributeID) :
    mapGet (execOpens f evt ops).attributes k = lastSetFrom k (mapGet evt.attributes k) ops := by
  induction ops generalizing evt with
  | nil => simp [execOpens, lastSetFrom]
  | cons op rest ih =>
    have h2 := ih (execOpen f evt op)
    rw [execOpen_mapGet] at h2
    rw [lastSetFrom_cons]
    simpa [execOpens] using h2


theorem execOp_ce_none {M CM : Type} (f : M → CM) (evt : Event CM) (h : evt.ce = none)
    (op : EventOp M) : (execOp f evt op).ce = none := by
  cases op with
  | call o =>
    cases o with
    | addMetric em => simp [execOp, execOpen, Event.AddMetric, Outcome.state, h]
    | setAttribute k v => simp [execOp, execOpen, Event.SetAttribute, Outcome.state, h]
    | getAttribute k =>
      cases hg : mapGet evt.attributes k <;>
        simp [execOp, execOpen, Event.GetAttribute, Outcome.state, h, hg]
  | getClientEventType => simp [execOp, Event.GetClientEventType, Outcome.state, h]
  | close now ord => simp [execOp, Event.close, Outcome.state, h]

theorem execOps_ce_none {M CM : Type} (f : M → CM) (ops : List (EventOp M)) (evt : Event CM)
    (h : evt.ce = none) : (execOps f evt ops).ce = none := by
  induction ops generalizing evt with
  | nil => simpa [execOps] using h
  | cons op rest ih =>
    have h2 := ih (execOp f evt op) (execOp_ce_none f evt h op)
    simpa [execOps] using h2

theorem execOp_mapGet {M CM : Type} (f : M → CM) (evt : Event CM) (op : EventOp M)
    (k : AttributeID) :
    mapGet (execOp f evt op).attributes k =
      lastSetFrom k (mapGet evt.attributes k) (openCalls [op]) := by
  cases op with
  | call o => simpa [execOp, openCalls] using execOpen_mapGet f evt o k
  | getClientEventType =>
    cases h : evt.ce <;>
      simp [execOp, Event.GetClientEventType, Outcome.state, h, openCalls, lastSetFrom]
  | close now ord =>
    cases h : evt.ce <;> simp [execOp, Event.close, Outcome.state, h, openCalls, lastSetFrom]

theorem openCalls_cons {M : Type} (op : EventOp M) (ops : List (EventOp M)) :
    openCalls (op :: ops) = openCalls [op] ++ openCalls ops := by
  cases op <;> simp [openCalls]

theorem lastSetFrom_append {M : Type} (k : AttributeID) (xs ys : List (OpenOp M))
    (acc : Option String) :
    lastSetFrom k acc (xs ++ ys) = lastSetFrom k (lastSetFrom k acc xs) ys := by
  induction xs generalizing acc with
  | nil => simp [lastSetFrom]
  | cons x rest ih =>
    rw [List.cons_append, lastSetFrom_cons, ih, lastSetFrom_cons k acc x rest]

theorem execOps_mapGet {M CM : Type} (f : M → CM) (ops : List (EventOp M)) (evt : Event CM)
    (k : AttributeID) :
    mapGet (execOps f evt ops).attributes k =
      lastSetFrom k (mapGet evt.attributes k) (openCalls ops) := by
  induction ops generalizing evt with
  | nil => simp [execOps, openCalls, lastSetFrom]
  | cons op rest ih =>
    have h2 := ih (execOp f evt op)
    rw [execOp_mapGet] at h2
    rw [openCalls_cons, lastSetFrom_append]
    simpa [execOps] using h2

theorem close_execOpens_NewEvent {M CM : Type} (f : M → CM) (id : String) (t0 : Time)
    (ty : ClientEventType) (ops : List (OpenOp M)) (now : Time) (ord : MapOrder) :
    (execOpens f (NewEvent id t0 ty) ops).close now ord =
      .ok
        { Id := id
          StartTime := nowTimestamp t0
          EndTime := some (nowTimestamp now)
          Type_ := ty
          Metrics := (addedMetrics ops).map f
          Attributes := (ord.order (execOpens f (NewEvent id t0 ty) ops).attributes).map
            (fun kv => ({ Id := kv.1, Value := kv.2 } : ClientEventAttribute)) }
        { ce := none, attributes := (execOpens f (NewEvent id t0 ty) ops).attributes } := by
  have h := execOpens_ce f ops (NewEvent id t0 ty) _ rfl
  simp only [Event.close, h]
  simp

/-! ## Claims about one event -/

/-- C1: on an event made by `NewEvent`, after any `AddMetric` / `SetAttribute`
/ `GetAttribute` calls, the first `close` returns a closed form and leaves the
record nil; after that, whatever calls follow, every `close` panics and returns
no closed form. -/
theorem close_once {M CM : Type} (f : M → CM) (id : String) (t0 : Time) (ty : ClientEventType)
    (pre : List (OpenOp M)) (now : Time) (ord : MapOrder) (post : List (EventOp M))
    (now2 : Time) (ord2 : MapOrder) :
    ∃ ce evt1,
      (execOpens f (NewEvent id t0 ty) pre).close now ord = .ok ce evt1 ∧
      evt1.ce = none ∧
      (execOps f evt1 post).close now2 ord2 = .panic (execOps f evt1 post) := by
  refine ⟨_, _, close_execOpens_NewEvent f id t0 ty pre now ord, rfl, ?_⟩
  exact close_of_ce_none _ (execOps_ce_none f post _ rfl) now2 ord2

/-- C3: the metric list of the closed form is the list of the metrics passed
to `AddMetric`, converted by `AsClientEventMetric`, in call order;
`SetAttribute` and `GetAttribute` calls contribute nothing to it. -/
theorem close_metrics {M CM : Type} (f : M → CM) (id : String) (t0 : Time)
    (ty : ClientEventType) (ops : List (OpenOp M)) (now : Time) (ord : MapOrder) :
    ∃ ce evt1,
      (execOpens f (NewEvent id t0 ty) ops).close now ord = .ok ce evt1 ∧
      ce.Metrics = (addedMetrics ops).map f := by
  exact ⟨_, _, close_execOpens_NewEvent f id t0 ty ops now ord, rfl⟩

/-- C4: in the attribute list of the closed form no kind occurs twice, and the
pair (k, v) occurs in it exactly when the last `SetAttribute(k, _)` call before
close set the value v; a kind that was never set has no pair. -/
theorem close_attributes {M CM : Type} (f : M → CM) (id : String) (t0 : Time)
    (ty : ClientEventType) (ops : List (OpenOp M)) (now : Time) (ord : MapOrder) :
    ∃ ce evt1,
      (execOpens f (NewEvent id t0 ty) ops).close now ord = .ok ce evt1 ∧
      (ce.Attributes.map ClientEventAttribute.Id).Nodup ∧
      ∀ k v, ({ Id := k, Value := v } : ClientEventAttribute) ∈ ce.Attributes ↔
        lastSet k ops = some v := by
  refine ⟨_, _, close_execOpens_NewEvent f id t0 ty ops now ord, ?_, ?_⟩
  · have hnd := execOpens_nodup f ops (NewEvent id t0 ty) (by simp [NewEvent])
    have hp := (ord.perm (execOpens f (NewEvent id t0 ty) ops).attributes).map Prod.fst
    have h2 := hp.nodup_iff.2 hnd
    simpa [List.map_map, Function.comp_def] using h2
  · intro k v
    have hnd := execOpens_nodup f ops (NewEvent id t0 ty) (by simp [NewEvent])
    have hp := ord.perm (execOpens f (NewEvent id t0 ty) ops).attributes
    have hg := execOpens_mapGet f ops (NewEvent id t0 ty) k
    have h0 : mapGet (NewEvent id t0 ty : Event CM).attributes k = none := by
      simp [NewEvent, mapGet]
    rw [h0] at hg
    rw [lastSet, ← hg, ← mem_iff_mapGet _ hnd, ← hp.mem_iff]
    simp only [List.mem_map, ClientEventAttribute.mk.injEq, Prod.exists]
    constructor
    · rintro ⟨a, b, hab, rfl, rfl⟩
      exact hab
    · intro hab
      exact ⟨k, v, hab, rfl, rfl⟩

/-- C8: on an event made by `NewEvent`, after any calls at all (closes and
failed calls included), `GetAttribute(k)` returns normally, leaves the event as
it was, and returns the value of the last `SetAttribute(k, _)` call, or the
empty string when there was none. -/
theorem getAttribute_last_set {M CM : Type} (f : M → CM) (id : String) (t0 : Time)
    (ty : ClientEventType) (ops : List (EventOp M)) (k : AttributeID) :
    (execOps f (NewEvent id t0 ty) ops).GetAttribute k =
      .ok ((lastSet k (openCalls ops)).getD "") (execOps f (NewEvent id t0 ty) ops) := by
  have hg := execOps_mapGet f ops (NewEvent id t0 ty) k
  have h0 : mapGet (NewEvent id t0 ty : Event CM).attributes k = none := by
    simp [NewEvent, mapGet]
  rw [h0] at hg
  unfold Event.GetAttribute
  rw [hg, lastSet]
  cases lastSetFrom k none (openCalls ops) <;> simp


/-- C5, as stated, fails: on the closed event `exClosedEvent` (the state
`close` leaves behind `exOpenEvent`), `SetAttribute(7, "v")` returns normally
and the attribute map changes from empty to the one entry (7, "v"). -/
theorem setAttribute_after_close_accepted :
    (∃ ce, exOpenEvent.close ⟨1, 0⟩ MapOrder.stored = .ok ce exClosedEvent) ∧
    exClosedEvent.attributes = [] ∧
    exClosedEvent.SetAttribute 7 "v" = .ok () { ce := none, attributes := [(7, "v")] } := by
  refine ⟨⟨_, rfl⟩, rfl, rfl⟩

/-- C5, amended: on an event that has been closed, after any further calls,
`AddMetric` panics and leaves the event as it was, while `SetAttribute(k, v)`
returns normally, writes (k, v) into the attribute map of the event and leaves
the record nil, so that a following `GetAttribute(k)` returns v. -/
theorem mutation_after_close {M CM : Type} (f : M → CM) (id : String) (t0 : Time)
    (ty : ClientEventType) (pre : List (OpenOp M)) (now : Time) (ord : MapOrder)
    (post : List (EventOp M)) (em : M) (k : AttributeID) (v : String) :
    ∃ ce evt1,
      (execOpens f (NewEvent id t0 ty) pre).close now ord = .ok ce evt1 ∧
      (execOps f evt1 post).AddMetric f em = .panic (execOps f evt1 post) ∧
      (execOps f evt1 post).SetAttribute k v =
        .ok () { ce := none, attributes := mapSet (execOps f evt1 post).attributes k v } ∧
      Event.GetAttribute
          ({ ce := none, attributes := mapSet (execOps f evt1 post).attributes k v } : Event CM) k =
        .ok v { ce := none, attributes := mapSet (execOps f evt1 post).attributes k v } := by
  refine ⟨_, _, close_execOpens_NewEvent f id t0 ty pre now ord, ?_, ?_, ?_⟩
  · have h := execOps_ce_none f post
      ({ ce := none, attributes := (execOpens f (NewEvent id t0 ty) pre).attributes } : Event CM) rfl
    simp [Event.AddMetric, h]
  · have h := execOps_ce_none f post
      ({ ce := none, attributes := (execOpens f (NewEvent id t0 ty) pre).attributes } : Event CM) rfl
    simp only [Event.SetAttribute, h]
  · simp [Event.GetAttribute, mapGet_mapSet]

/-! ## Timestamps -/

theorem wrapInt32_tmod (n : Int) :
    wrapInt32 (Int.tmod n timeSecond) = Int.tmod n timeSecond := by
  have h1 : Int.tmod n timeSecond < 1000000000 := by
    have := Int.tmod_lt_of_pos n (show (0 : Int) < timeSecond by decide)
    simpa [timeSecond] using this
  have h2 : -1000000000 < Int.tmod n timeSecond := by
    cases n with
    | ofNat m =>
      have := Int.tmod_nonneg timeSecond (Int.ofNat_nonneg m)
      simp only [Int.ofNat_eq_coe] at this ⊢
      omega
    | negSucc m =>
      have hlt : (m + 1) % 1000000000 < 1000000000 := Nat.mod_lt _ (by decide)
      have he : Int.tmod (Int.negSucc m) timeSecond = -(((m + 1) % 1000000000 : Nat) : Int) := rfl
      rw [he]
      omega
  unfold wrapInt32
  omega

/-- For a reading at or after the epoch whose nanosecond count fits `int64`,
`nowTimestamp` returns the reading itself: its seconds and its nanosecond
offset. -/
theorem nowTimestamp_of_nonneg (t : Time) (h0 : 0 ≤ t.sec)
    (h1 : t.sec * 1000000000 + (t.nsec.val : Int) < 9223372036854775808) :
    nowTimestamp t = { Seconds := t.sec, Nanos := (t.nsec.val : Int) } := by
  have hn : (t.nsec.val : Int) < 1000000000 := by exact_mod_cast t.nsec.isLt
  have hn0 : (0 : Int) ≤ (t.nsec.val : Int) := Int.ofNat_nonneg _
  have hu : t.UnixNano = t.sec * 1000000000 + (t.nsec.val : Int) := by
    unfold Time.UnixNano wrapInt64
    omega
  have hm : Int.tmod t.UnixNano timeSecond = (t.nsec.val : Int) := by
    rw [hu, Int.tmod_eq_emod (by omega) (by decide)]
    unfold timeSecond
    omega
  unfold nowTimestamp
  simp only [wrapInt32_tmod, Time.Unix]
  rw [hm]

/-- C10 at the reading one nanosecond before the epoch (Unix-nanosecond value
-1): `nowTimestamp` returns Seconds = -1 and Nanos = -1, so Nanos is negative
and Seconds * 10^9 + Nanos is -1000000001, not -1. -/
theorem nowTimestamp_before_epoch :
    exBeforeEpoch.UnixNano = -1 ∧
    nowTimestamp exBeforeEpoch = { Seconds := -1, Nanos := -1 } ∧
    (nowTimestamp exBeforeEpoch).toNanos = -1000000001 := by
  decide

/-- C9 at an event created at 1969-12-31T23:59:58Z and closed one nanosecond
later: the closed form has startTime (-2, 0) and endTime (-2, -999999999), so
its endTime is earlier than its startTime although the clock did not go
back. -/
theorem close_endTime_before_startTime :
    exCreated.UnixNano ≤ exClosed.UnixNano ∧
    ∃ ce evt1,
      (NewEvent "e1" exCreated 0 : Event Nat).close exClosed MapOrder.stored = .ok ce evt1 ∧
      ce.StartTime = { Seconds := -2, Nanos := 0 } ∧
      ce.EndTime = some { Seconds := -2, Nanos := -999999999 } ∧
      (nowTimestamp exClosed).toNanos < (nowTimestamp exCreated).toNanos := by
  refine ⟨by decide, _, _, rfl, by decide, by decide, by decide⟩

/-- For readings at or after the epoch that fit `int64`, the closed form keeps
the timestamp stamped by `NewEvent` as its startTime and its endTime is not
earlier when the clock did not go back. -/
theorem close_times_of_nonneg {M CM : Type} (f : M → CM) (id : String) (t0 : Time)
    (ty : ClientEventType) (ops : List (OpenOp M)) (now : Time) (ord : MapOrder)
    (h0 : 0 ≤ t0.sec) (h1 : now.sec * 1000000000 + (now.nsec.val : Int) < 9223372036854775808)
    (hle : t0.sec * 1000000000 + (t0.nsec.val : Int) ≤
      now.sec * 1000000000 + (now.nsec.val : Int)) :
    ∃ ce evt1,
      (execOpens f (NewEvent id t0 ty) ops).close now ord = .ok ce evt1 ∧
      ce.StartTime = nowTimestamp t0 ∧
      ce.EndTime = some (nowTimestamp now) ∧
      (nowTimestamp t0).toNanos ≤ (nowTimestamp now).toNanos := by
  refine ⟨_, _, close_execOpens_NewEvent f id t0 ty ops now ord, rfl, rfl, ?_⟩
  have hn : (t0.nsec.val : Int) < 1000000000 := by exact_mod_cast t0.nsec.isLt
  have hn0 : (0 : Int) ≤ (now.nsec.val : Int) := Int.ofNat_nonneg _
  have hn1 : (now.nsec.val : Int) < 1000000000 := by exact_mod_cast now.nsec.isLt
  have hs : 0 ≤ now.sec := by omega
  rw [nowTimestamp_of_nonneg t0 h0 (by omega), nowTimestamp_of_nonneg now hs h1]
  simpa [Timestamp.toNanos] using hle


/-! ## Collector: steps -/

theorem chanSend_ok_iff {CM : Type} (c c1 : Collector CM) (ce : ClientEvent CM) :
    chanSend c ce = .ok () c1 ↔
      c.chClosed = false ∧ c.evtCh.length < collChanBufferSize ∧
        c1 = { c with evtCh := c.evtCh ++ [ce] } := by
  unfold chanSend
  cases hcl : c.chClosed
  · by_cases hlen : c.evtCh.length < collChanBufferSize
    · simp only [hlen, if_true, Bool.false_eq_true, if_false, Outcome.ok.injEq, true_and]
      exact ⟨fun h => h.symm, fun h => h.symm⟩
    · simp [hlen]
  · simp

theorem step_submit_some {CM : Type} (c c1 : Collector CM) (evt : Event CM) (now : Time)
    (ord : MapOrder) (hs : step c (.submit evt now ord) = some c1) :
    ∃ ce evt1, evt.close now ord = .ok ce evt1 ∧ chanSend c ce = .ok () c1 := by
  simp only [step, Collector.CloseEventAndAdd] at hs
  cases hcl : evt.close now ord with
  | ok ce evt1 =>
    rw [hcl] at hs
    dsimp only at hs
    cases hsend : chanSend c ce with
    | ok r c2 =>
      rw [hsend] at hs
      simp only [Option.some.injEq] at hs
      exact ⟨ce, evt1, rfl, by rw [← hs]; exact hsend⟩
    | panic c2 => rw [hsend] at hs; simp at hs
    | blocked => rw [hsend] at hs; simp at hs
  | panic evt1 => rw [hcl] at hs; simp at hs
  | blocked => rw [hcl] at hs; simp at hs

theorem step_consume_some {CM : Type} (c c1 : Collector CM) (hs : step c .consume = some c1) :
    c.wg ≠ 0 ∧
      ((∃ evt rest, c.evtCh = evt :: rest ∧
          c1 = { c with evtCh := rest, events := c.events ++ [evt] }) ∨
        (c.evtCh = [] ∧ c.chClosed = true ∧
          c1 = { c with val := some c.events, wg := c.wg - 1 })) := by
  simp only [step, consumerStep] at hs
  by_cases hwg : c.wg = 0
  · simp [hwg] at hs
  · refine ⟨hwg, ?_⟩
    simp only [hwg, if_false] at hs
    cases hq : c.evtCh with
    | nil =>
      rw [hq] at hs
      cases hcl : c.chClosed
      · simp [hcl] at hs
      · simp only [hcl, if_true, Option.some.injEq] at hs
        exact Or.inr ⟨rfl, rfl, hs.symm⟩
    | cons evt rest =>
      rw [hq] at hs
      simp only [Option.some.injEq] at hs
      exact Or.inl ⟨evt, rest, rfl, hs.symm⟩

theorem step_shutdown_some {CM : Type} (c c1 : Collector CM) (hs : step c .shutdown = some c1) :
    c.chClosed = false ∧ c1 = { c with chClosed := true } := by
  simp only [step, chanClose] at hs
  cases hcl : c.chClosed
  · simp only [hcl, Bool.false_eq_true, if_false, Option.some.injEq] at hs
    exact ⟨rfl, hs.symm⟩
  · simp [hcl] at hs

theorem step_open {CM : Type} (c c1 : Collector CM) (a : Action CM) (hc : c.chClosed = false)
    (ha : a.isShutdown = false) (hs : step c a = some c1) :
    c1.chClosed = false ∧ c1.wg = c.wg ∧ c1.val = c.val ∧
      c1.events ++ c1.evtCh = c.events ++ c.evtCh ++ a.closedForm.toList := by
  cases a with
  | submit evt now ord =>
    obtain ⟨ce, evt1, hcl, hsend⟩ := step_submit_some c c1 evt now ord hs
    obtain ⟨_, _, h1⟩ := (chanSend_ok_iff c c1 ce).1 hsend
    subst h1
    simp [Action.closedForm, hcl, hc, List.append_assoc]
  | consume =>
    obtain ⟨_, h | h⟩ := step_consume_some c c1 hs
    · obtain ⟨evt, rest, hq, h1⟩ := h
      subst h1
      simp [Action.closedForm, hc, hq]
    · rw [hc] at h
      simp at h
  | shutdown => simp [Action.isShutdown] at ha

theorem run_open {CM : Type} (acts : List (Action CM)) (c0 c : Collector CM)
    (hc : c0.chClosed = false) (hno : ∀ a ∈ acts, a.isShutdown = false)
    (hrun : run c0 acts = some c) :
    c.chClosed = false ∧ c.wg = c0.wg ∧ c.val = c0.val ∧
      c.events ++ c.evtCh = c0.events ++ c0.evtCh ++ closedForms acts := by
  induction acts generalizing c0 with
  | nil =>
    simp only [run, Option.some.injEq] at hrun
    subst hrun
    simp [closedForms, hc]
  | cons a rest ih =>
    simp only [run] at hrun
    cases hs : step c0 a with
    | none => rw [hs] at hrun; simp at hrun
    | some c1 =>
      rw [hs] at hrun
      obtain ⟨h1, h2, h3, h4⟩ := step_open c0 c1 a hc (hno a (List.mem_cons_self a rest)) hs
      obtain ⟨g1, g2, g3, g4⟩ :=
        ih c1 h1 (fun b hb => hno b (List.mem_cons_of_mem a hb)) hrun
      refine ⟨g1, by rw [g2, h2], by rw [g3, h3], ?_⟩
      rw [g4, h4]
      cases hcf : a.closedForm <;> simp [closedForms, List.filterMap_cons, hcf]

theorem run_numSubmits {CM : Type} (acts : List (Action CM)) (c0 c : Collector CM)
    (hrun : run c0 acts = some c) : (closedForms acts).length = numSubmits acts := by
  induction acts generalizing c0 with
  | nil => simp [closedForms, numSubmits]
  | cons a rest ih =>
    simp only [run] at hrun
    cases hs : step c0 a with
    | none => rw [hs] at hrun; simp at hrun
    | some c1 =>
      rw [hs] at hrun
      have h := ih c1 hrun
      simp only [closedForms, numSubmits] at h ⊢
      cases a with
      | submit evt now ord =>
        obtain ⟨ce, evt1, hcl, _⟩ := step_submit_some c0 c1 evt now ord hs
        simp [List.filterMap_cons, Action.closedForm, hcl, List.filter_cons, Action.isSubmit, h]
      | consume =>
        simp [List.filterMap_cons, Action.closedForm, List.filter_cons, Action.isSubmit, h]
      | shutdown =>
        simp [List.filterMap_cons, Action.closedForm, List.filter_cons, Action.isSubmit, h]

theorem consumerStep_cons {CM : Type} (c : Collector CM) (evt : ClientEvent CM)
    (rest : List (ClientEvent CM)) (hwg : c.wg ≠ 0) (hq : c.evtCh = evt :: rest) :
    consumerStep c = .ok () { c with evtCh := rest, events := c.events ++ [evt] } := by
  simp [consumerStep, hwg, hq]

theorem runConsumer_succ_ok {CM : Type} (n : Nat) (c c1 : Collector CM)
    (h : consumerStep c = .ok () c1) : runConsumer (n + 1) c = runConsumer n c1 := by
  simp [runConsumer, h]

theorem runConsumer_closed {CM : Type} (q : List (ClientEvent CM)) (c : Collector CM)
    (hcl : c.chClosed = true) (hwg : c.wg = 1) (hq : c.evtCh = q) :
    runConsumer (q.length + 1) c =
      { c with evtCh := [], events := c.events ++ q, val := some (c.events ++ q), wg := 0 } := by
  induction q generalizing c with
  | nil =>
    simp [runConsumer, consumerStep, hcl, hwg, hq]
  | cons evt rest ih =>
    have h := ih { c with evtCh := rest, events := c.events ++ [evt] } hcl hwg rfl
    have hstep := consumerStep_cons c evt rest (by omega) hq
    rw [List.length_cons, runConsumer_succ_ok _ c _ hstep, h]
    simp [List.append_assoc]

theorem close_open {CM : Type} (c : Collector CM) (hcl : c.chClosed = false) (hwg : c.wg = 1) :
    c.Close = .ok (c.events ++ c.evtCh)
      { c with
        chClosed := true
        evtCh := []
        events := c.events ++ c.evtCh
        val := some (c.events ++ c.evtCh)
        wg := 0 } := by
  have h := runConsumer_closed c.evtCh { c with chClosed := true } rfl hwg rfl
  simp only [Collector.Close, chanClose, hcl, Bool.false_eq_true, if_false]
  simp only [h]
  simp


theorem close_ok_of_ce {CM : Type} (evt : Event CM) (now : Time) (ord : MapOrder)
    (h : evt.ce ≠ none) : ∃ ce evt1, evt.close now ord = .ok ce evt1 := by
  cases hce : evt.ce with
  | none => exact absurd hce h
  | some ce0 =>
    unfold Event.close
    rw [hce]
    exact ⟨_, _, rfl⟩

theorem step_submit_ok {CM : Type} (c : Collector CM) (evt evt1 : Event CM) (now : Time)
    (ord : MapOrder) (ce : ClientEvent CM) (hcl : evt.close now ord = .ok ce evt1)
    (hc : c.chClosed = false) (hlen : c.evtCh.length < collChanBufferSize) :
    step c (.submit evt now ord) = some { c with evtCh := c.evtCh ++ [ce] } := by
  simp [step, Collector.CloseEventAndAdd, hcl, chanSend, hc, hlen]

theorem step_length_le {CM : Type} (c c1 : Collector CM) (a : Action CM)
    (h : c.evtCh.length ≤ collChanBufferSize) (hs : step c a = some c1) :
    c1.evtCh.length ≤ collChanBufferSize := by
  cases a with
  | submit evt now ord =>
    obtain ⟨ce, evt1, _, hsend⟩ := step_submit_some c c1 evt now ord hs
    obtain ⟨_, hlt, h1⟩ := (chanSend_ok_iff c c1 ce).1 hsend
    subst h1
    simp only [List.length_append, List.length_singleton]
    omega
  | consume =>
    obtain ⟨_, h1 | h1⟩ := step_consume_some c c1 hs
    · obtain ⟨evt, rest, hq, h2⟩ := h1
      subst h2
      rw [hq, List.length_cons] at h
      simp only
      omega
    · obtain ⟨_, _, h2⟩ := h1
      subst h2
      exact h
  | shutdown =>
    obtain ⟨_, h1⟩ := step_shutdown_some c c1 hs
    subst h1
    exact h

theorem run_length_le {CM : Type} (acts : List (Action CM)) (c0 c : Collector CM)
    (h : c0.evtCh.length ≤ collChanBufferSize) (hrun : run c0 acts = some c) :
    c.evtCh.length ≤ collChanBufferSize := by
  induction acts generalizing c0 with
  | nil =>
    simp only [run, Option.some.injEq] at hrun
    subst hrun
    exact h
  | cons a rest ih =>
    simp only [run] at hrun
    cases hs : step c0 a with
    | none => rw [hs] at hrun; simp at hrun
    | some c1 =>
      rw [hs] at hrun
      exact ih c1 (step_length_le c0 c1 a h hs) hrun

theorem run_submitAll {CM : Type} (subs : List (Event CM × Time × MapOrder))
    (c0 : Collector CM) (hc : c0.chClosed = false)
    (hlen : c0.evtCh.length + subs.length ≤ collChanBufferSize)
    (hopen : ∀ s ∈ subs, s.1.ce ≠ none) :
    ∃ c, run c0 (submitAll subs) = some c ∧ c.evtCh.length = c0.evtCh.length + subs.length := by
  induction subs generalizing c0 with
  | nil => exact ⟨c0, by simp [submitAll, run], by simp⟩
  | cons s rest ih =>
    obtain ⟨ce, evt1, hcl⟩ :=
      close_ok_of_ce s.1 s.2.1 s.2.2 (hopen s (List.mem_cons_self s rest))
    rw [List.length_cons] at hlen
    have hstep := step_submit_ok c0 s.1 evt1 s.2.1 s.2.2 ce hcl hc (by omega)
    obtain ⟨c, hrun, hl⟩ := ih { c0 with evtCh := c0.evtCh ++ [ce] } hc
      (by simp only [List.length_append, List.length_singleton]; omega)
      (fun t ht => hopen t (List.mem_cons_of_mem s ht))
    refine ⟨c, ?_, ?_⟩
    · simp only [submitAll, List.map_cons, run, hstep]
      exact hrun
    · rw [hl]
      simp only [List.length_append, List.length_singleton, List.length_cons, List.length_nil]
      omega

theorem run_submitEach {CM : Type} (subs : List (Event CM × Time × MapOrder))
    (c0 : Collector CM) (hc : c0.chClosed = false) (hwg : c0.wg ≠ 0) (hq : c0.evtCh = [])
    (hopen : ∀ s ∈ subs, s.1.ce ≠ none) :
    ∃ c, run c0 (submitEach subs) = some c ∧ numSubmits (submitEach subs) = subs.length := by
  induction subs generalizing c0 with
  | nil => exact ⟨c0, by simp [submitEach, run], by simp [submitEach, numSubmits]⟩
  | cons s rest ih =>
    obtain ⟨evt, now, ord⟩ := s
    obtain ⟨ce, evt1, hcl⟩ :=
      close_ok_of_ce evt now ord (hopen (evt, now, ord) (List.mem_cons_self _ rest))
    have hstep := step_submit_ok c0 evt evt1 now ord ce hcl hc
      (by rw [hq]; simp [collChanBufferSize])
    have hcons : step { c0 with evtCh := c0.evtCh ++ [ce] } Action.consume =
        some { c0 with evtCh := [], events := c0.events ++ [ce] } := by
      simp [step, consumerStep, hwg, hq]
    obtain ⟨c, hrun, hn⟩ := ih { c0 with evtCh := [], events := c0.events ++ [ce] } hc hwg rfl
      (fun t ht => hopen t (List.mem_cons_of_mem _ ht))
    refine ⟨c, ?_, ?_⟩
    · simp only [submitEach, run, hstep, hcons]
      exact hrun
    · simp only [numSubmits] at hn ⊢
      simp [submitEach, List.filter_cons, Action.isSubmit, hn]

theorem consumerStep_chClosed {CM : Type} (c c1 : Collector CM)
    (h : consumerStep c = .ok () c1) : c1.chClosed = c.chClosed := by
  have hs : step c .consume = some c1 := by simp [step, h]
  obtain ⟨_, h1 | h1⟩ := step_consume_some c c1 hs
  · obtain ⟨evt, rest, _, h2⟩ := h1
    subst h2
    rfl
  · obtain ⟨_, _, h2⟩ := h1
    subst h2
    rfl

theorem runConsumer_chClosed {CM : Type} (n : Nat) (c : Collector CM) :
    (runConsumer n c).chClosed = c.chClosed := by
  induction n generalizing c with
  | zero => rfl
  | succ n ih =>
    cases h : consumerStep c with
    | ok r c1 =>
      rw [runConsumer_succ_ok n c c1 h, ih c1, consumerStep_chClosed c c1 h]
    | panic c1 => simp [runConsumer, h]
    | blocked => simp [runConsumer, h]

/-- After `Close` has returned, the channel is closed and the returned
sequence is the published value. -/
theorem close_ok_closed {CM : Type} (c c1 : Collector CM) (r : List (ClientEvent CM))
    (h : c.Close = .ok r c1) : c1.chClosed = true ∧ c1.val = some r := by
  unfold Collector.Close chanClose at h
  cases hcl : c.chClosed
  · simp only [hcl, Bool.false_eq_true, if_false] at h
    split at h
    · split at h
      · rename_i hwg events hval
        simp only [Outcome.ok.injEq] at h
        obtain ⟨h1, h2⟩ := h
        subst h2
        subst h1
        exact ⟨by rw [runConsumer_chClosed], hval⟩
      · simp at h
    · simp at h
  · simp [hcl] at h

/-! ## Claims about the collector -/

/-- C2: on a new collector, after any schedule of `CloseEventAndAdd` calls
and goroutine steps that runs without the channel being closed, `Close`
returns the closed forms of the submitted events, one per call and in the
order of the calls, and publishes that sequence; with no call it returns the
empty sequence. -/
theorem close_returns_submitted {CM : Type} (acts : List (Action CM)) (c : Collector CM)
    (hno : ∀ a ∈ acts, a.isShutdown = false) (hrun : run NewCollector acts = some c) :
    (closedForms acts).length = numSubmits acts ∧
      ∃ c1, c.Close = .ok (closedForms acts) c1 ∧ c1.val = some (closedForms acts) := by
  obtain ⟨h1, h2, _, h4⟩ := run_open acts NewCollector c rfl hno hrun
  refine ⟨run_numSubmits acts NewCollector c hrun, ?_⟩
  have hc := close_open c h1 (by rw [h2]; rfl)
  have h5 : c.events ++ c.evtCh = closedForms acts := by
    rw [h4]
    simp [NewCollector]
  rw [h5] at hc
  exact ⟨_, hc, rfl⟩

theorem close_returns_submitted_witness :
    (∀ a ∈ exSchedule, a.isShutdown = false) ∧
    run NewCollector exSchedule = some exCollector ∧
    numSubmits exSchedule = 3 ∧
    ((closedForms exSchedule).length = numSubmits exSchedule ∧
      ∃ c1, exCollector.Close = .ok (closedForms exSchedule) c1 ∧
        c1.val = some (closedForms exSchedule)) :=
  ⟨by simp [exSchedule, Action.isShutdown], rfl, rfl,
    close_returns_submitted exSchedule exCollector
      (by simp [exSchedule, Action.isShutdown]) rfl⟩

/-- C6: on a collector whose channel has been closed by `Close`, a further
`Close` panics and every `CloseEventAndAdd` panics, each leaving the collector,
its published value included, exactly as it was. -/
theorem shutdown_rejects {CM : Type} (c : Collector CM) (h : c.chClosed = true) :
    c.Close = .panic c ∧
      ∀ evt now ord, ∃ evt1, c.CloseEventAndAdd evt now ord = .panic (c, evt1) := by
  refine ⟨by simp [Collector.Close, chanClose, h], ?_⟩
  intro evt now ord
  cases hce : evt.ce with
  | none => exact ⟨evt, by simp [Collector.CloseEventAndAdd, Event.close, hce]⟩
  | some ce0 =>
    exact ⟨{ evt with ce := none },
      by simp [Collector.CloseEventAndAdd, Event.close, hce, chanSend, h]⟩

theorem shutdown_rejects_witness :
    (NewCollector : Collector Nat).Close = .ok [] exShutDown ∧
    exShutDown.chClosed = true ∧
    (exShutDown.Close = .panic exShutDown ∧
      ∀ evt now ord, ∃ evt1, exShutDown.CloseEventAndAdd evt now ord = .panic (exShutDown, evt1)) :=
  ⟨rfl, rfl, shutdown_rejects exShutDown rfl⟩

/-- C7: in every state reachable from a new collector the channel holds at
most 32 closed forms; with fewer than 32 a send on the open channel goes
through; with exactly 32 no submit step is enabled (a send on the open channel
blocks), every step other than a goroutine step leaves the channel full, and a
goroutine step leaves fewer than 32; and up to 32 open events can be submitted
to a new collector with no goroutine step in between. -/
theorem queue_capacity {CM : Type} (acts : List (Action CM)) (c : Collector CM)
    (hrun : run NewCollector acts = some c) :
    c.evtCh.length ≤ collChanBufferSize ∧
    (c.evtCh.length < collChanBufferSize → c.chClosed = false →
      ∀ ce, chanSend c ce = .ok () { c with evtCh := c.evtCh ++ [ce] }) ∧
    (c.evtCh.length = collChanBufferSize →
      (∀ evt now ord, step c (.submit evt now ord) = none) ∧
      (c.chClosed = false → ∀ ce, chanSend c ce = .blocked) ∧
      (∀ a c1, a.isConsume = false → step c a = some c1 →
        c1.evtCh.length = collChanBufferSize) ∧
      (∀ c1, step c .consume = some c1 → c1.evtCh.length < collChanBufferSize)) ∧
    (∀ subs : List (Event CM × Time × MapOrder), subs.length ≤ collChanBufferSize →
      (∀ s ∈ subs, s.1.ce ≠ none) →
      ∃ c1, run NewCollector (submitAll subs) = some c1 ∧ c1.evtCh.length = subs.length) := by
  refine ⟨run_length_le acts NewCollector c (by simp [NewCollector]) hrun, ?_, ?_, ?_⟩
  · intro hlt hcl ce
    exact (chanSend_ok_iff c _ ce).2 ⟨hcl, hlt, rfl⟩
  · intro hfull
    refine ⟨?_, ?_, ?_, ?_⟩
    · intro evt now ord
      cases hs : step c (.submit evt now ord) with
      | none => rfl
      | some c1 =>
        obtain ⟨ce, _, _, hsend⟩ := step_submit_some c c1 evt now ord hs
        obtain ⟨_, hlt, _⟩ := (chanSend_ok_iff c c1 ce).1 hsend
        omega
    · intro hcl ce
      simp [chanSend, hcl, hfull]
    · intro a c1 ha hs
      cases a with
      | submit evt now ord =>
        obtain ⟨ce, _, _, hsend⟩ := step_submit_some c c1 evt now ord hs
        obtain ⟨_, hlt, _⟩ := (chanSend_ok_iff c c1 ce).1 hsend
        omega
      | consume => simp [Action.isConsume] at ha
      | shutdown =>
        obtain ⟨_, h1⟩ := step_shutdown_some c c1 hs
        subst h1
        exact hfull
    · intro c1 hs
      obtain ⟨_, h1 | h1⟩ := step_consume_some c c1 hs
      · obtain ⟨evt, rest, hq, h2⟩ := h1
        subst h2
        rw [hq, List.length_cons] at hfull
        simp only
        omega
      · obtain ⟨hq, _, _⟩ := h1
        rw [hq] at hfull
        simp [collChanBufferSize] at hfull
  · intro subs hlen hopen
    obtain ⟨c1, h1, h2⟩ := run_submitAll subs NewCollector rfl
      (by simpa [NewCollector] using hlen) hopen
    exact ⟨c1, h1, by simpa [NewCollector] using h2⟩

theorem queue_capacity_witness :
    run NewCollector exFillSchedule = some exFull ∧
    exFull.evtCh.length = collChanBufferSize ∧
    (exFull.evtCh.length ≤ collChanBufferSize ∧
    (exFull.evtCh.length < collChanBufferSize → exFull.chClosed = false →
      ∀ ce, chanSend exFull ce = .ok () { exFull with evtCh := exFull.evtCh ++ [ce] }) ∧
    (exFull.evtCh.length = collChanBufferSize →
      (∀ evt now ord, step exFull (.submit evt now ord) = none) ∧
      (exFull.chClosed = false → ∀ ce, chanSend exFull ce = .blocked) ∧
      (∀ a c1, a.isConsume = false → step exFull a = some c1 →
        c1.evtCh.length = collChanBufferSize) ∧
      (∀ c1, step exFull .consume = some c1 → c1.evtCh.length < collChanBufferSize)) ∧
    (∀ subs : List (Event Nat × Time × MapOrder), subs.length ≤ collChanBufferSize →
      (∀ s ∈ subs, s.1.ce ≠ none) →
      ∃ c1, run NewCollector (submitAll subs) = some c1 ∧ c1.evtCh.length = subs.length)) :=
  ⟨rfl, rfl, queue_capacity exFillSchedule exFull rfl⟩

end Events
